import Mathlib

/-!
Verification of the wineserver named-pipe subsystem (server/named_pipe.c).

The definitions below are a shallow embedding of the message-mode I/O
engine, the connection graph discipline and the request handlers of
named_pipe.c.  Machine integers are modelled as Nat (all the quantities
involved — sizes, cursors, flag words — are non-negative and no
arithmetic in the modelled code can overflow in practice); memory
allocation is modelled as infallible; the host async layer is modelled
by explicit event traces (async_terminate / release_object /
fd_async_wake_up calls become constructors of PipeEvent).
-/

namespace NamedPipe

/-- NTSTATUS values observable from the modelled code paths. -/
inductive NtStatus where
  | success
  | pending
  | alerted
  | buffer_overflow
  | pipe_broken
  | pipe_disconnected
  | pipe_listening
  | pipe_connected
  | no_data_detected
  | invalid_handle
  | pipe_not_available
  | access_denied
  | instance_not_available
  | invalid_parameter
  | no_memory
  | bad_device_type
  | io_timeout
  | not_supported
  | info_length_mismatch
  deriving DecidableEq, Repr

/-- FILE_SHARE_READ bit. -/
def FILE_SHARE_READ : Nat := 1
/-- FILE_SHARE_WRITE bit. -/
def FILE_SHARE_WRITE : Nat := 2
/-- GENERIC_READ access bit. -/
def GENERIC_READ : Nat := 0x80000000
/-- GENERIC_WRITE access bit. -/
def GENERIC_WRITE : Nat := 0x40000000
/-- NAMED_PIPE_MESSAGE_STREAM_WRITE pipe flag. -/
def NAMED_PIPE_MESSAGE_STREAM_WRITE : Nat := 1
/-- NAMED_PIPE_MESSAGE_STREAM_READ pipe flag. -/
def NAMED_PIPE_MESSAGE_STREAM_READ : Nat := 2

/-- One in-flight message-mode write (struct pipe_message together with the
fields of its iosb that the pipe code reads and writes).  `data` is the
write payload (iosb->in_data, with in_size = data.length), `read_pos` the
consumed-bytes cursor, `status`/`result` the writer iosb status and result
fields, and `async` the id of the pending writer async (None once the
async has been released). -/
structure PipeMessage where
  read_pos : Nat
  data : List Nat
  status : NtStatus
  result : Nat
  async : Option Nat
  deriving DecidableEq, Repr

/-- in_size of the message iosb. -/
def PipeMessage.size (m : PipeMessage) : Nat := m.data.length

/-- Unread byte count of a queued message (in_size - read_pos). -/
def PipeMessage.remaining (m : PipeMessage) : Nat := m.size - m.read_pos

/-- Unread bytes of a queued message. -/
def remainingBytes (m : PipeMessage) : List Nat := m.data.drop m.read_pos

/-- Sum of unread bytes over a message queue. -/
def totalRemaining (q : List PipeMessage) : Nat := (q.map PipeMessage.remaining).sum

/-- Concatenation of the unread bytes of a queue, in queue order. -/
def concatRemaining : List PipeMessage → List Nat
  | [] => []
  | m :: rest => remainingBytes m ++ concatRemaining rest

/-- Calls into the host async/fd layer made by the pipe code, recorded as an
event trace: async_terminate on a read async (with the iosb result at that
point), async_terminate on a write async, release_object of an async,
fd_async_wake_up of the ASYNC_TYPE_WAIT (flush) queue, async_wake_up of a
read queue, fd_queue_async of a listen async, and async_wake_up of the
named pipe waiters queue. -/
inductive PipeEvent where
  | termRead (id : Nat) (st : NtStatus) (result : Nat)
  | termWrite (id : Nat) (st : NtStatus)
  | releaseAsync (id : Nat)
  | flushWake (st : NtStatus)
  | readWake (st : NtStatus)
  | listenQueued
  | waitersWake (st : NtStatus)
  | delegated
  deriving DecidableEq, Repr

/-- wake_message (named_pipe.c:393): mark the message iosb complete
(status success, result = in_size) and, if the writer async is still
attached, terminate it — with alerted when the result is non-zero — and
release it. -/
def wake_message (m : PipeMessage) : PipeMessage × List PipeEvent :=
  let m2 : PipeMessage :=
    { m with status := NtStatus.success, result := m.size, async := none }
  match m.async with
  | some aid =>
      (m2, [PipeEvent.termWrite aid
              (if m.size ≠ 0 then NtStatus.alerted else NtStatus.success),
            PipeEvent.releaseAsync aid])
  | none => (m2, [])

/-- The avail loop of the byte-stream-read branch of message_queue_read
(named_pipe.c:704): accumulate remaining byte counts in queue order,
stopping as soon as the request size is covered. -/
def availLoop (req : Nat) : List PipeMessage → Nat → Nat
  | [], acc => acc
  | m :: rest, acc =>
      let acc2 := acc + m.remaining
      if req ≤ acc2 then acc2 else availLoop req rest acc2

/-- The copy loop of message_queue_read (named_pipe.c:733): copy from the
head message into the output buffer, advancing read_pos; a message whose
bytes are exhausted is woken and freed; the loop stops once out_size bytes
have been written.  Returns the bytes written, the queue left behind and
the async events raised. -/
def copyLoop (out_size : Nat) :
    List PipeMessage → Nat → List Nat × List PipeMessage × List PipeEvent
  | [], _ => ([], [], [])
  | m :: rest, write_pos =>
      let writing := min (out_size - write_pos) (m.size - m.read_pos)
      let chunk := (m.data.drop m.read_pos).take writing
      let m2 : PipeMessage := { m with read_pos := m.read_pos + writing }
      if m2.read_pos = m.size then
        let wk := wake_message m2
        if write_pos + writing < out_size then
          let r := copyLoop out_size rest (write_pos + writing)
          (chunk ++ r.1, r.2.1, wk.2 ++ r.2.2)
        else
          (chunk, rest, wk.2)
      else
        (chunk, m2 :: rest, [])

/-- Result of message_queue_read: the fields of the reader iosb that the
function fills in, the message queue it leaves behind, and the async
events raised on woken writers. -/
structure ReadResult where
  out_data : List Nat
  out_size : Nat
  status : NtStatus
  result : Nat
  queue : List PipeMessage
  events : List PipeEvent
  deriving DecidableEq, Repr

/-- The truncated transfer size computed by the first phase of
message_queue_read: with message-stream-read, the request capped to the
head message's remaining bytes; otherwise the request capped by the avail
loop's tally. -/
def msgqrOutSize (msgRead : Bool) (head : PipeMessage) (rest : List PipeMessage)
    (req : Nat) : Nat :=
  if msgRead then min req head.remaining
  else min req (availLoop req (head :: rest) 0)

/-- The iosb status computed by the first phase of message_queue_read:
buffer_overflow when a message-stream read leaves part of the head
message behind, success otherwise. -/
def msgqrStatus (msgRead : Bool) (head : PipeMessage) (rest : List PipeMessage)
    (req : Nat) : NtStatus :=
  if msgRead then
    (if head.read_pos + msgqrOutSize msgRead head rest req < head.size then
      NtStatus.buffer_overflow
     else NtStatus.success)
  else NtStatus.success

/-- message_queue_read (named_pipe.c:690).  The caller guarantees a
non-empty queue (reselect_read_queue only calls it then); on [] the model
returns an all-empty result.  msgRead is the NAMED_PIPE_MESSAGE_STREAM_READ
bit of the reading end.  Memory allocation is modelled as infallible, so
the STATUS_NO_MEMORY branch does not arise. -/
def message_queue_read (msgRead : Bool) (queue : List PipeMessage) (req : Nat) :
    ReadResult :=
  match queue with
  | [] => ⟨[], 0, NtStatus.success, 0, [], []⟩
  | head :: rest =>
      let out_size := msgqrOutSize msgRead head rest req
      let status := msgqrStatus msgRead head rest req
      if head.read_pos = 0 ∧ head.size = out_size then
        let wk := wake_message head
        ⟨head.data, out_size, status, out_size, rest, wk.2⟩
      else
        let r := copyLoop out_size (head :: rest) 0
        ⟨r.1, out_size, status, out_size, r.2.1, r.2.2⟩

/-- Result of the while loop of reselect_read_queue (named_pipe.c:763):
the message queue and pending read asyncs left behind, the events raised,
and the read_done flag. -/
structure ReadLoopRes where
  queue : List PipeMessage
  read_q : List (Nat × Nat)
  events : List PipeEvent
  read_done : Bool
  deriving DecidableEq, Repr

/-- The while loop of reselect_read_queue: while the message queue is
non-empty and a pending read async exists, feed it via message_queue_read
and terminate it — with alerted when the iosb result is non-zero, with the
iosb status otherwise.  Read asyncs are pairs of async id and requested
out_size, in FIFO order. -/
def reselectReadLoop (msgRead : Bool) :
    List PipeMessage → List (Nat × Nat) → ReadLoopRes
  | queue, [] => ⟨queue, [], [], false⟩
  | [], asyncs => ⟨[], asyncs, [], false⟩
  | m :: q, (id, req) :: asyncs =>
      let r := message_queue_read msgRead (m :: q) req
      let ev := PipeEvent.termRead id
        (if r.result ≠ 0 then NtStatus.alerted else r.status) r.result
      let rest := reselectReadLoop msgRead r.queue asyncs
      ⟨rest.queue, rest.read_q, r.events ++ ev :: rest.events, true⟩

/-- The queue walk of reselect_write_queue (named_pipe.c:793), over the
reader's queue with the running avail tally: a message still carrying its
writer async whose iosb status is no longer pending is freed and the async
released; otherwise the message's remaining bytes are tallied and a
pending message is woken when the tally is within the reader's buffer_size
budget or the message is empty. -/
def reselectWriteWalk (bufsz : Nat) :
    List PipeMessage → Nat → List PipeMessage × List PipeEvent
  | [], _ => ([], [])
  | m :: rest, avail =>
      if m.async.isSome ∧ m.status ≠ NtStatus.pending then
        let r := reselectWriteWalk bufsz rest avail
        (r.1, (m.async.map (fun aid => PipeEvent.releaseAsync aid)).toList ++ r.2)
      else
        let avail2 := avail + m.remaining
        if m.status = NtStatus.pending ∧ (avail2 ≤ bufsz ∨ m.size = 0) then
          let wk := wake_message m
          let r := reselectWriteWalk bufsz rest avail2
          (wk.1 :: r.1, wk.2 ++ r.2)
        else
          let r := reselectWriteWalk bufsz rest avail2
          (m :: r.1, r.2)

/-- The state of a message-mode reading end that reselect manipulates:
its stream-read flag, its buffer_size budget, whether its connection is
non-null, its message queue and its pending read asyncs. -/
structure ReaderState where
  msgRead : Bool
  bufsz : Nat
  hasConn : Bool
  queue : List PipeMessage
  read_q : List (Nat × Nat)
  deriving DecidableEq, Repr

/-- reselect_read_queue (named_pipe.c:756), with explicit fuel for the
mutual recursion through reselect_write_queue; none means the fuel ran
out.  After the read loop, when the connection is non-null: if the queue
drained, the peer's flush waiters are woken with success; otherwise if a
read completed, the peer's write queue is reselected — which walks this
end's queue (the peer's reader is this end) and then reselects this read
queue again. -/
def reselect_read_queue : Nat → ReaderState → Option (ReaderState × List PipeEvent)
  | 0, _ => none
  | fuel + 1, st =>
      let r := reselectReadLoop st.msgRead st.queue st.read_q
      let st2 : ReaderState := ⟨st.msgRead, st.bufsz, st.hasConn, r.queue, r.read_q⟩
      if st.hasConn then
        if r.queue = [] then
          some (st2, r.events ++ [PipeEvent.flushWake NtStatus.success])
        else if r.read_done then
          let w := reselectWriteWalk st.bufsz r.queue 0
          match reselect_read_queue fuel ⟨st.msgRead, st.bufsz, st.hasConn, w.1, r.read_q⟩ with
          | none => none
          | some (st3, evs3) => some (st3, r.events ++ w.2 ++ evs3)
        else some (st2, r.events)
      else some (st2, r.events)

/-- reselect_write_queue (named_pipe.c:783) seen from the writing end:
nothing happens without a reader; otherwise the reader's queue is walked
and then the reader's read queue reselected. -/
def reselect_write_queue (fuel : Nat) :
    Option ReaderState → Option (Option ReaderState × List PipeEvent)
  | none => some (none, [])
  | some reader =>
      let w := reselectWriteWalk reader.bufsz reader.queue 0
      match reselect_read_queue fuel
          ⟨reader.msgRead, reader.bufsz, reader.hasConn, w.1, reader.read_q⟩ with
      | none => none
      | some (st2, evs2) => some (some st2, w.2 ++ evs2)

/-- Outcome of a flush request: completed synchronously, or queued as an
ASYNC_TYPE_WAIT async with STATUS_PENDING. -/
inductive FlushOutcome where
  | syncComplete
  | pendingWait
  deriving DecidableEq, Repr

/-- pipe_end_flush (named_pipe.c:652).  msgWrite is use_server_io of the
end; connQueue is the peer's message queue, none when the connection is
null.  In message mode the flush completes at once when there is no peer
or the peer queue is empty; otherwise (and always in byte mode, where
pipe_server_flush has already established that data remains) the async is
queued on the end's fd wait queue.  fd_queue_async and handle allocation
are modelled as succeeding. -/
def pipe_end_flush (msgWrite : Bool) (connQueue : Option (List PipeMessage)) :
    FlushOutcome :=
  if msgWrite ∧ (connQueue = none ∨ connQueue = some []) then
    FlushOutcome.syncComplete
  else FlushOutcome.pendingWait

/-- pipe_client_flush (named_pipe.c:683): message-mode clients flush via
pipe_end_flush; byte mode is unimplemented and returns at once. -/
def pipe_client_flush (msgWrite : Bool) (connQueue : Option (List PipeMessage)) :
    FlushOutcome :=
  if msgWrite then pipe_end_flush msgWrite connQueue else FlushOutcome.syncComplete

/-- The per-end state of the connection graph (the fields of struct
pipe_end that pipe_end_disconnect and the lifecycle operations touch):
the use_server_io flag (NAMED_PIPE_MESSAGE_STREAM_WRITE bit), the weak
peer edge, the message queue and the fd presence and signalled bits. -/
structure EndData where
  msgWrite : Bool
  conn : Option Nat
  queue : List PipeMessage
  hasFd : Bool
  fdSignaled : Bool

/-- The connection graph: pipe ends are named by Nat ids; none means no
such end is alive. -/
def World : Type := Nat → Option EndData

/-- The empty world, before any pipe end exists. -/
def initWorld : World := fun _ => none

/-- Replace the data of one end. -/
def setEnd (w : World) (e : Nat) (d : Option EndData) : World :=
  fun x => if x = e then d else w x

/-- Overwrite the connection edge of one end. -/
def setConn (w : World) (e : Nat) (c : Option Nat) : World :=
  fun x => if x = e then (w x).map (fun d => { d with conn := c }) else w x

/-- The connection edge of an end (none for a dead end). -/
def connOf (w : World) (e : Nat) : Option Nat := (w e).bind EndData.conn

/-- Per-message teardown events of pipe_end_disconnect: a message still
carrying its writer async has that async terminated with the disconnect
status and released. -/
def msgTermEvents (st : NtStatus) : List PipeMessage → List PipeEvent
  | [] => []
  | m :: rest =>
      (match m.async with
       | some aid => [PipeEvent.termWrite aid st, PipeEvent.releaseAsync aid]
       | none => []) ++ msgTermEvents st rest

/-- The local effects of pipe_end_disconnect (named_pipe.c:420) on one
end, after its forward edge has been cleared: with server-mediated I/O,
wake the fd wait asyncs and the read queue with the teardown status, free
every message that still has a writer async or — on an explicit
disconnect — every message, terminating and releasing the writer asyncs,
and on an explicit disconnect lower the fd signalled bit. -/
def disconnect_local (d : EndData) (st : NtStatus) : EndData × List PipeEvent :=
  if d.msgWrite then
    let evs0 := (if d.hasFd then [PipeEvent.flushWake st] else [])
      ++ [PipeEvent.readWake st]
    let q2 := if st = NtStatus.pipe_disconnected then []
      else d.queue.filter (fun m => m.async.isNone)
    let sg := if st = NtStatus.pipe_disconnected then false else d.fdSignaled
    ({ d with queue := q2, fdSignaled := sg },
      evs0 ++ msgTermEvents st (d.queue.filter (fun m => m.async.isSome)))
  else (d, [])

/-- pipe_end_disconnect (named_pipe.c:414) with explicit fuel for its
self-recursion; none means the fuel ran out.  The forward edge is cleared
first, then the local effects run, then — when there was a peer — the
peer's back edge is cleared and the function recurses into the peer. -/
def pipe_end_disconnect :
    Nat → World → Nat → NtStatus → Option (World × List PipeEvent)
  | 0, _, _, _ => none
  | fuel + 1, w, e, st =>
      match w e with
      | none => some (w, [])
      | some d =>
          let c := d.conn
          let r := disconnect_local { d with conn := none } st
          let w1 := setEnd w e (some r.1)
          match c with
          | none => some (w1, r.2)
          | some p =>
              let w2 := setConn w1 p none
              match pipe_end_disconnect fuel w2 p st with
              | none => none
              | some pr => some (pr.1, r.2 ++ pr.2)

/-- pipe_end_disconnect run with fuel 2, which always suffices (claim C8). -/
def pipe_end_disconnectW (w : World) (e : Nat) (st : NtStatus) :
    World × List PipeEvent :=
  (pipe_end_disconnect 2 w e st).getD (w, [])

/-- Outcome of pipe_end_read before any data moves: delegated to the host
fd (byte mode), failed synchronously with STATUS_PIPE_BROKEN, or queued on
the read queue (followed by a read reselect). -/
inductive ReadAttempt where
  | hostRead
  | failBroken
  | queued
  deriving DecidableEq, Repr

/-- pipe_end_read (named_pipe.c:813): without server-mediated I/O the
host fd read runs; with it, a read on an end whose connection is gone and
whose message queue is empty fails with STATUS_PIPE_BROKEN; otherwise the
async is queued and the read queue reselected.  Queue creation and handle
allocation are modelled as succeeding. -/
def pipe_end_read (d : EndData) : ReadAttempt :=
  if !d.msgWrite then ReadAttempt.hostRead
  else if d.conn = none ∧ d.queue = [] then ReadAttempt.failBroken
  else ReadAttempt.queued

/-- The operations of named_pipe.c that create, pair, disconnect or
destroy pipe ends — the only operations that touch the connection edges.
`create` is init_pipe_end (named_pipe.c:1061, via create_pipe_server and
create_pipe_client); `pair` is the pairing step of named_pipe_open_file
(named_pipe.c:1238), whose two ends are a freshly created client and a
server found in wait_open or idle_server state, both with a null
connection; `disconnect` is pipe_end_disconnect with any teardown status
(its callers pass pipe_broken or pipe_disconnected); `destroy` is
pipe_server_destroy / pipe_client_destroy, which disconnect with
pipe_broken before freeing the end. -/
inductive Step : World → World → Prop where
  | create (w : World) (e : Nat) (mw : Bool) (fd sg : Bool) : w e = none →
      Step w (setEnd w e (some ⟨mw, none, [], fd, sg⟩))
  | pair (w : World) (a b : Nat) (da db : EndData) : a ≠ b →
      w a = some da → w b = some db → da.conn = none → db.conn = none →
      Step w (setConn (setConn w a (some b)) b (some a))
  | disconnect (w : World) (e : Nat) (st : NtStatus) :
      Step w (pipe_end_disconnectW w e st).1
  | destroy (w : World) (e : Nat) :
      Step w (setEnd (pipe_end_disconnectW w e NtStatus.pipe_broken).1 e none)

/-- Worlds reachable from the empty world by the modelled operations. -/
inductive Reachable : World → Prop where
  | init : Reachable initWorld
  | step {w w' : World} : Reachable w → Step w w' → Reachable w'

/-- The central graph invariant: every connection edge points to a live
end whose connection edge points back. -/
def SymInv (w : World) : Prop :=
  ∀ e p, connOf w e = some p → (w p).isSome ∧ connOf w p = some e

/-- The pipe server state machine (enum pipe_state). -/
inductive PipeState where
  | ps_idle_server
  | ps_wait_open
  | ps_connected_server
  | ps_wait_disconnect
  | ps_wait_connect
  deriving DecidableEq, Repr

/-- Size in bytes of the fixed header of FILE_PIPE_PEEK_BUFFER (four
32-bit fields before Data). -/
def peekHeaderSize : Nat := 16

/-- The peek reply fields that pipe_end_peek fills in (NamedPipeState and
NumberOfMessages are hard-coded to zero in the source and omitted). -/
structure PeekInfo where
  readDataAvailable : Nat
  messageLength : Nat
  sample : List Nat
  deriving DecidableEq, Repr

/-- pipe_end_peek (named_pipe.c:924): byte mode is rejected as
not_supported; a reply buffer smaller than the fixed header is rejected as
info_length_mismatch; otherwise the reply carries the total unread byte
count, the head message's remaining length and a sample of the head
message capped by the reply capacity. -/
def pipe_end_peek (msgWrite : Bool) (queue : List PipeMessage) (replyMax : Nat) :
    Except NtStatus PeekInfo :=
  if !msgWrite then Except.error NtStatus.not_supported
  else if replyMax < peekHeaderSize then Except.error NtStatus.info_length_mismatch
  else
    let cap := replyMax - peekHeaderSize
    let avail := totalRemaining queue
    let headRem := match queue with | [] => 0 | m :: _ => m.remaining
    let message_length := if avail ≠ 0 then headRem else 0
    let reply_size := if avail ≠ 0 then min cap headRem else 0
    let sample := match queue with
      | [] => []
      | m :: _ => (m.data.drop m.read_pos).take reply_size
    Except.ok ⟨avail, message_length, sample⟩

/-- The state of one pipe server that pipe_server_ioctl manipulates: the
state-machine state, the connection graph holding its pipe end (id
srvEndId) and, when connected, the client end (id cliEndId), the fd
bookkeeping, the server→client and client→server references, whether the
named pipe has waiters, the byte-mode flush poll timer and the no-fd
status of the ioctl fd. -/
structure SrvWorld where
  state : PipeState
  ends : World
  srvFd : Bool
  cliFd : Bool
  hasClient : Bool
  cliServerRef : Bool
  waiters : Bool
  flush_poll : Bool
  ioctlFdStatus : NtStatus

/-- Id of the server pipe end in SrvWorld.ends. -/
def srvEndId : Nat := 0
/-- Id of the client pipe end in SrvWorld.ends. -/
def cliEndId : Nat := 1

/-- use_server_io of the server end. -/
def srvMsgWrite (w : SrvWorld) : Bool :=
  match w.ends srvEndId with
  | some d => d.msgWrite
  | none => false

/-- Message queue of the server end. -/
def srvQueue (w : SrvWorld) : List PipeMessage :=
  match w.ends srvEndId with
  | some d => d.queue
  | none => []

/-- set_server_state (named_pipe.c:353): records the state and
reconfigures the ioctl fd's no-fd status for the unconnected states. -/
def set_server_state (w : SrvWorld) (s : PipeState) : SrvWorld :=
  match s with
  | PipeState.ps_connected_server | PipeState.ps_wait_disconnect =>
      { w with state := s }
  | PipeState.ps_wait_open | PipeState.ps_idle_server =>
      { w with state := s, ioctlFdStatus := NtStatus.pipe_listening }
  | PipeState.ps_wait_connect =>
      { w with state := s, ioctlFdStatus := NtStatus.pipe_disconnected }

/-- notify_empty (named_pipe.c:383): when the byte-mode flush poll timer
is armed, cancel it and wake the fd wait asyncs with success. -/
def notify_empty (w : SrvWorld) : SrvWorld × List PipeEvent :=
  if w.flush_poll then
    ({ w with flush_poll := false }, [PipeEvent.flushWake NtStatus.success])
  else (w, [])

/-- do_disconnect (named_pipe.c:443): in byte mode release the client's
data fd; release the server's data fd (the unix shutdown call is a host
effect outside the model). -/
def do_disconnect (w : SrvWorld) : SrvWorld :=
  let w1 := if w.hasClient ∧ srvMsgWrite w = false then { w with cliFd := false } else w
  { w1 with srvFd := false }

/-- The ioctl codes dispatched by pipe_server_ioctl; every other code is
delegated to default_fd_ioctl. -/
inductive IoctlCode where
  | fsctl_pipe_listen
  | fsctl_pipe_disconnect
  | fsctl_pipe_peek
  | otherCode
  deriving DecidableEq, Repr

/-- pipe_server_ioctl (named_pipe.c:964).  replyMax is the reply buffer
capacity seen by the peek path.  The returned status is the error set by
the branch, success when none is set.  fd_queue_async on the ioctl fd is
modelled as succeeding and wait-handle allocation is not modelled. -/
def pipe_server_ioctl (code : IoctlCode) (replyMax : Nat) (w : SrvWorld) :
    SrvWorld × NtStatus × List PipeEvent :=
  match code with
  | IoctlCode.fsctl_pipe_listen =>
      match w.state with
      | PipeState.ps_idle_server | PipeState.ps_wait_connect =>
          let w1 := set_server_state w PipeState.ps_wait_open
          let evs := if w.waiters then [PipeEvent.waitersWake NtStatus.success] else []
          (w1, NtStatus.pending, PipeEvent.listenQueued :: evs)
      | PipeState.ps_connected_server => (w, NtStatus.pipe_connected, [])
      | PipeState.ps_wait_disconnect => (w, NtStatus.no_data_detected, [])
      | PipeState.ps_wait_open => (w, NtStatus.invalid_handle, [])
  | IoctlCode.fsctl_pipe_disconnect =>
      match w.state with
      | PipeState.ps_connected_server =>
          let n := notify_empty w
          let d := pipe_end_disconnectW n.1.ends srvEndId NtStatus.pipe_disconnected
          let w2 := do_disconnect { n.1 with ends := d.1 }
          let w3 := { w2 with cliServerRef := false, hasClient := false }
          (set_server_state w3 PipeState.ps_wait_connect, NtStatus.success, n.2 ++ d.2)
      | PipeState.ps_wait_disconnect =>
          let d := pipe_end_disconnectW w.ends srvEndId NtStatus.pipe_disconnected
          let w2 := do_disconnect { w with ends := d.1 }
          (set_server_state w2 PipeState.ps_wait_connect, NtStatus.success, d.2)
      | PipeState.ps_idle_server | PipeState.ps_wait_open =>
          (w, NtStatus.pipe_listening, [])
      | PipeState.ps_wait_connect => (w, NtStatus.pipe_disconnected, [])
  | IoctlCode.fsctl_pipe_peek =>
      match pipe_end_peek (srvMsgWrite w) (srvQueue w) replyMax with
      | Except.error e => (w, e, [])
      | Except.ok _ => (w, NtStatus.success, [])
  | IoctlCode.otherCode => (w, NtStatus.success, [PipeEvent.delegated])

/-- One server of a named pipe as seen by find_available_server: its id
and state. -/
structure ServerRec where
  id : Nat
  state : PipeState
  deriving DecidableEq, Repr

/-- find_available_server (named_pipe.c:1114): first a server in
wait_open, otherwise one in idle_server, in list order. -/
def find_available_server (servers : List ServerRec) : Option ServerRec :=
  match servers.find? (fun s => decide (s.state = PipeState.ps_wait_open)) with
  | some s => some s
  | none => servers.find? (fun s => decide (s.state = PipeState.ps_idle_server))

/-- Outcome of a client open on a named pipe: the error if any, the
server list afterwards and the id of the server connected to. -/
structure OpenOutcome where
  err : Option NtStatus
  servers : List ServerRec
  chosen : Option Nat
  deriving DecidableEq, Repr

/-- The server-selection and access-check part of named_pipe_open_file
(named_pipe.c:1149): no available server fails with pipe_not_available;
requested read access without share-read or write access without
share-write fails with access_denied and releases the server untouched;
otherwise the pairing succeeds (fd and socket allocation are modelled as
succeeding) and the chosen server becomes connected_server. -/
def named_pipe_open_file (pipe_sharing access : Nat) (servers : List ServerRec) :
    OpenOutcome :=
  match find_available_server servers with
  | none => ⟨some NtStatus.pipe_not_available, servers, none⟩
  | some s =>
      if (access &&& GENERIC_READ ≠ 0 ∧ pipe_sharing &&& FILE_SHARE_READ = 0) ∨
         (access &&& GENERIC_WRITE ≠ 0 ∧ pipe_sharing &&& FILE_SHARE_WRITE = 0) then
        ⟨some NtStatus.access_denied, servers, none⟩
      else
        ⟨none,
         servers.map (fun t =>
           if t.id = s.id then { t with state := PipeState.ps_connected_server } else t),
         some s.id⟩

/-- The fields of the create_named_pipe request that the handler reads. -/
structure CreateReq where
  sharing : Nat
  maxinstances : Nat
  insize : Nat
  outsize : Nat
  timeout : Int
  flags : Nat
  deriving DecidableEq, Repr

/-- A named pipe object as the create handler sees it: the stored
parameters, the live instance count and the states of its server list
(most recently created first, as list_add_head builds it). -/
structure NamedPipeRec where
  sharing : Nat
  maxinstances : Nat
  insize : Nat
  outsize : Nat
  timeout : Int
  flags : Nat
  instances : Nat
  serverStates : List PipeState
  deriving DecidableEq, Repr

/-- Outcome of create_named_pipe: the error if any, the pipe object
afterwards (the pre-existing one, possibly updated, or the newly created
one; none when none existed and none was created) and whether a server
was created. -/
structure CreateResult where
  err : Option NtStatus
  pipeAfter : Option NamedPipeRec
  serverCreated : Bool
  deriving DecidableEq, Repr

/-- DECL_HANDLER(create_named_pipe) (named_pipe.c:1295), for a request
whose object attributes parsed and whose name resolves under the pipe
device; existing is the pipe of the same name when one exists.  The
validation rejects a zero sharing word, sharing bits outside
share-read/share-write and message-stream-read without
message-stream-write.  A fresh pipe stores the request parameters (flags
masked to the message-stream-write bit); a pre-existing pipe rejects a
full instance set with instance_not_available and a differing sharing word
with access_denied, then clears the name collision.  create_pipe_server
adds a server in idle_server state and the instance count is raised. -/
def create_named_pipe (req : CreateReq) (existing : Option NamedPipeRec) :
    CreateResult :=
  if req.sharing = 0 ∨
     req.sharing &&& (FILE_SHARE_READ ||| FILE_SHARE_WRITE) ≠ req.sharing ∨
     (req.flags &&& NAMED_PIPE_MESSAGE_STREAM_WRITE = 0 ∧
      req.flags &&& NAMED_PIPE_MESSAGE_STREAM_READ ≠ 0) then
    ⟨some NtStatus.invalid_parameter, existing, false⟩
  else
    match existing with
    | none =>
        let pipe : NamedPipeRec :=
          ⟨req.sharing, req.maxinstances, req.insize, req.outsize, req.timeout,
           req.flags &&& NAMED_PIPE_MESSAGE_STREAM_WRITE, 0, []⟩
        ⟨none,
         some { pipe with
                  serverStates := PipeState.ps_idle_server :: pipe.serverStates,
                  instances := pipe.instances + 1 },
         true⟩
    | some pipe =>
        if pipe.maxinstances ≤ pipe.instances then
          ⟨some NtStatus.instance_not_available, some pipe, false⟩
        else if pipe.sharing ≠ req.sharing then
          ⟨some NtStatus.access_denied, some pipe, false⟩
        else
          ⟨none,
           some { pipe with
                    serverStates := PipeState.ps_idle_server :: pipe.serverStates,
                    instances := pipe.instances + 1 },
           true⟩

/-- Spec-side restatement of the write-reselect walk in the words of the
specification, for comparison with reselectWriteWalk: every queued message
whose writer async has already completed (status not pending, async still
attached) is removed; a pending message is woken — its iosb set to success
with result equal to its full size and its async detached — while the
running sum of remaining bytes stays within the budget or the message has
zero length. -/
def keptQueueSpec (bufsz : Nat) : Nat → List PipeMessage → List PipeMessage
  | _, [] => []
  | avail, m :: rest =>
      if m.async.isSome ∧ m.status ≠ NtStatus.pending then
        keptQueueSpec bufsz avail rest
      else
        let a2 := avail + m.remaining
        (if m.status = NtStatus.pending ∧ (a2 ≤ bufsz ∨ m.size = 0) then
           { m with status := NtStatus.success, result := m.size, async := none }
         else m) :: keptQueueSpec bufsz a2 rest

/-- The running sum of remaining bytes of the write-reselect walk at a
given queue position: messages that the walk frees (completed with async
attached) do not contribute. -/
def runningAvail : Nat → List PipeMessage → Nat → Nat
  | avail, [], _ => avail
  | avail, m :: rest, i =>
      let a2 := if m.async.isSome ∧ m.status ≠ NtStatus.pending then avail
                else avail + m.remaining
      match i with
      | 0 => a2
      | i + 1 => runningAvail a2 rest i

theorem disconnect_step_fuel_drop (fuel : Nat) (w : World) (e : Nat) (st : NtStatus)
    (h : connOf w e = none) :
    pipe_end_disconnect (fuel + 1) w e st = pipe_end_disconnect 1 w e st := by
  cases hwe : w e with
  | none => simp [pipe_end_disconnect, hwe]
  | some d =>
      have hc : d.conn = none := by simpa [connOf, hwe] using h
      simp [pipe_end_disconnect, hwe, hc]

theorem disconnect_one_isSome (w : World) (e : Nat) (st : NtStatus)
    (h : connOf w e = none) :
    (pipe_end_disconnect 1 w e st).isSome = true := by
  cases hwe : w e with
  | none => simp [pipe_end_disconnect, hwe]
  | some d =>
      have hc : d.conn = none := by simpa [connOf, hwe] using h
      simp [pipe_end_disconnect, hwe, hc]

theorem setConn_connOf_self (w : World) (p : Nat) :
    connOf (setConn w p none) p = none := by
  cases hwp : w p <;> simp [connOf, setConn, hwp]

/-- Claim C8: pipe_end_disconnect terminates for every pipe end and every
status: fuel 2 — recursion depth at most one — always succeeds, and any
additional fuel leaves the result unchanged, because the forward edge is
cleared before the recursion into the peer, so the inner call observes a
null connection and does not recurse again. -/
theorem c8_disconnect_terminates (w : World) (e : Nat) (st : NtStatus) :
    (pipe_end_disconnect 2 w e st).isSome = true ∧
    ∀ extra : Nat, pipe_end_disconnect (2 + extra) w e st = pipe_end_disconnect 2 w e st := by
  cases hwe : w e with
  | none =>
      refine ⟨by simp [pipe_end_disconnect, hwe], fun extra => ?_⟩
      have h1 : 2 + extra = (extra + 1) + 1 := by omega
      rw [h1]
      simp [pipe_end_disconnect, hwe]
  | some d =>
      cases hcd : d.conn with
      | none =>
          have hce : connOf w e = none := by simp [connOf, hwe, hcd]
          refine ⟨?_, fun extra => ?_⟩
          · rw [show (2:Nat) = 1 + 1 from rfl, disconnect_step_fuel_drop 1 w e st hce]
            exact disconnect_one_isSome w e st hce
          · have h1 : 2 + extra = (1 + extra) + 1 := by omega
            have h2 : 1 + extra = extra + 1 := by omega
            rw [h1, h2, disconnect_step_fuel_drop (extra + 1) w e st hce,
              show (2:Nat) = 1 + 1 from rfl, disconnect_step_fuel_drop 1 w e st hce]
      | some p =>
          have key : ∀ fuel : Nat, pipe_end_disconnect (fuel + 1) w e st =
              match pipe_end_disconnect fuel
                  (setConn (setEnd w e
                    (some (disconnect_local { d with conn := none } st).1)) p none) p st with
              | none => none
              | some pr => some (pr.1, (disconnect_local { d with conn := none } st).2 ++ pr.2) := by
            intro fuel
            simp [pipe_end_disconnect, hwe, hcd]
          have h2 : connOf (setConn (setEnd w e
              (some (disconnect_local { d with conn := none } st).1)) p none) p = none :=
            setConn_connOf_self _ p
          refine ⟨?_, fun extra => ?_⟩
          · rw [show (2:Nat) = 1 + 1 from rfl, key 1]
            have hs := disconnect_one_isSome _ p st h2
            cases hin : pipe_end_disconnect 1
                (setConn (setEnd w e
                  (some (disconnect_local { d with conn := none } st).1)) p none) p st with
            | none => rw [hin] at hs; simp at hs
            | some pr => simp [hin]
          · have h1 : 2 + extra = (1 + extra) + 1 := by omega
            have h3 : 1 + extra = extra + 1 := by omega
            rw [h1, key (1 + extra), show (2:Nat) = 1 + 1 from rfl, key 1, h3,
              disconnect_step_fuel_drop extra _ p st h2]

/-- Claim C4: the failing server ioctls return exactly the statuses of the
state table and leave the server — state, connection graph, queues, fds,
references — completely unchanged: FSCTL_PIPE_LISTEN fails with
invalid_handle in wait_open, pipe_connected in connected_server and
no_data_detected in wait_disconnect; FSCTL_PIPE_DISCONNECT fails with
pipe_listening in idle_server and wait_open, and pipe_disconnected in
wait_connect; in particular a repeated FSCTL_PIPE_LISTEN from wait_open
fails without side effects. -/
theorem c4_ioctl_failures (w : SrvWorld) (replyMax : Nat) :
    pipe_server_ioctl IoctlCode.fsctl_pipe_listen replyMax
        { w with state := PipeState.ps_wait_open } =
      ({ w with state := PipeState.ps_wait_open }, NtStatus.invalid_handle, []) ∧
    pipe_server_ioctl IoctlCode.fsctl_pipe_listen replyMax
        { w with state := PipeState.ps_connected_server } =
      ({ w with state := PipeState.ps_connected_server }, NtStatus.pipe_connected, []) ∧
    pipe_server_ioctl IoctlCode.fsctl_pipe_listen replyMax
        { w with state := PipeState.ps_wait_disconnect } =
      ({ w with state := PipeState.ps_wait_disconnect }, NtStatus.no_data_detected, []) ∧
    pipe_server_ioctl IoctlCode.fsctl_pipe_disconnect replyMax
        { w with state := PipeState.ps_idle_server } =
      ({ w with state := PipeState.ps_idle_server }, NtStatus.pipe_listening, []) ∧
    pipe_server_ioctl IoctlCode.fsctl_pipe_disconnect replyMax
        { w with state := PipeState.ps_wait_open } =
      ({ w with state := PipeState.ps_wait_open }, NtStatus.pipe_listening, []) ∧
    pipe_server_ioctl IoctlCode.fsctl_pipe_disconnect replyMax
        { w with state := PipeState.ps_wait_connect } =
      ({ w with state := PipeState.ps_wait_connect }, NtStatus.pipe_disconnected, []) :=
  ⟨rfl, rfl, rfl, rfl, rfl, rfl⟩

/-- Claim C9: a create_named_pipe request whose sharing word is zero or
has bits outside share-read and share-write, or which asks for
message-stream-read without message-stream-write, fails with
invalid_parameter, and no named pipe or pipe server is created. -/
theorem c9_create_validation (req : CreateReq) (existing : Option NamedPipeRec)
    (h : req.sharing = 0 ∨
      req.sharing &&& (FILE_SHARE_READ ||| FILE_SHARE_WRITE) ≠ req.sharing ∨
      (req.flags &&& NAMED_PIPE_MESSAGE_STREAM_WRITE = 0 ∧
       req.flags &&& NAMED_PIPE_MESSAGE_STREAM_READ ≠ 0)) :
    create_named_pipe req existing =
      ⟨some NtStatus.invalid_parameter, existing, false⟩ := by
  simp only [create_named_pipe, if_pos h]

theorem c9_witness :
    create_named_pipe ⟨0, 1, 0, 0, 0, 0⟩ none =
      ⟨some NtStatus.invalid_parameter, none, false⟩ :=
  c9_create_validation ⟨0, 1, 0, 0, 0, 0⟩ none (Or.inl rfl)

/-- Counterexample to claim C6 as stated: when the requested sharing
differs from the stored sharing AND the instance set is already full, the
code fails with instance_not_available, not access_denied — the
max-instances check runs before the sharing check. -/
theorem c6_counterexample :
    (⟨FILE_SHARE_READ, 1, 0, 0, 0, 0, 1, [PipeState.ps_idle_server]⟩ :
        NamedPipeRec).sharing ≠
      (⟨FILE_SHARE_WRITE, 2, 0, 0, 0, 0⟩ : CreateReq).sharing ∧
    create_named_pipe (⟨FILE_SHARE_WRITE, 2, 0, 0, 0, 0⟩ : CreateReq)
        (some (⟨FILE_SHARE_READ, 1, 0, 0, 0, 0, 1, [PipeState.ps_idle_server]⟩ :
          NamedPipeRec)) =
      ⟨some NtStatus.instance_not_available,
       some (⟨FILE_SHARE_READ, 1, 0, 0, 0, 0, 1, [PipeState.ps_idle_server]⟩ :
          NamedPipeRec), false⟩ ∧
    NtStatus.instance_not_available ≠ NtStatus.access_denied := by
  refine ⟨by decide, ?_, by decide⟩
  rfl

/-- Claim C6 as amended: for a valid request finding a pre-existing pipe,
the instance check runs first — instance_count ≥ max_instances fails with
instance_not_available; otherwise a differing sharing word fails with
access_denied; otherwise the collision is cleared, a server in idle_server
state is added and the instance count incremented; on either failure no
server is added and the pipe is unchanged. -/
theorem c6_create_existing (req : CreateReq) (pipe : NamedPipeRec)
    (hvalid : ¬(req.sharing = 0 ∨
      req.sharing &&& (FILE_SHARE_READ ||| FILE_SHARE_WRITE) ≠ req.sharing ∨
      (req.flags &&& NAMED_PIPE_MESSAGE_STREAM_WRITE = 0 ∧
       req.flags &&& NAMED_PIPE_MESSAGE_STREAM_READ ≠ 0))) :
    (pipe.maxinstances ≤ pipe.instances →
      create_named_pipe req (some pipe) =
        ⟨some NtStatus.instance_not_available, some pipe, false⟩) ∧
    (pipe.instances < pipe.maxinstances → pipe.sharing ≠ req.sharing →
      create_named_pipe req (some pipe) =
        ⟨some NtStatus.access_denied, some pipe, false⟩) ∧
    (pipe.instances < pipe.maxinstances → pipe.sharing = req.sharing →
      create_named_pipe req (some pipe) =
        ⟨none,
         some { pipe with
                  serverStates := PipeState.ps_idle_server :: pipe.serverStates,
                  instances := pipe.instances + 1 },
         true⟩) := by
  refine ⟨fun hfull => ?_, fun hroom hdiff => ?_, fun hroom hsame => ?_⟩
  · simp only [create_named_pipe, if_neg hvalid, if_pos hfull]
  · have hnf : ¬ pipe.maxinstances ≤ pipe.instances := by omega
    simp only [create_named_pipe, if_neg hvalid, if_neg hnf, if_pos hdiff]
  · have hnf : ¬ pipe.maxinstances ≤ pipe.instances := by omega
    have hns : ¬ pipe.sharing ≠ req.sharing := by simp [hsame]
    simp only [create_named_pipe, if_neg hvalid, if_neg hnf, if_neg hns]

theorem c6_witness :
    create_named_pipe (⟨FILE_SHARE_READ, 1, 0, 0, 0, 0⟩ : CreateReq)
        (some (⟨FILE_SHARE_READ, 1, 0, 0, 0, 0, 1, [PipeState.ps_idle_server]⟩ :
          NamedPipeRec)) =
      ⟨some NtStatus.instance_not_available,
       some (⟨FILE_SHARE_READ, 1, 0, 0, 0, 0, 1, [PipeState.ps_idle_server]⟩ :
          NamedPipeRec), false⟩ :=
  (c6_create_existing ⟨FILE_SHARE_READ, 1, 0, 0, 0, 0⟩
      ⟨FILE_SHARE_READ, 1, 0, 0, 0, 0, 1, [PipeState.ps_idle_server]⟩
      (by decide)).1 (by decide)

/-- Claim C5: a client open picks a server in wait_open if any exists,
otherwise one in idle_server; with neither the open fails with
pipe_not_available; and when the requested access conflicts with the
pipe's sharing — read without share-read or write without share-write —
the open fails with access_denied and the server list, states included, is
unchanged. -/
theorem c5_open_selection (servers : List ServerRec) :
    (∀ s, find_available_server servers = some s →
      s ∈ servers ∧ (s.state = PipeState.ps_wait_open ∨
        (s.state = PipeState.ps_idle_server ∧
         ∀ t ∈ servers, t.state ≠ PipeState.ps_wait_open))) ∧
    (find_available_server servers = none ↔
      ∀ t ∈ servers,
        t.state ≠ PipeState.ps_wait_open ∧ t.state ≠ PipeState.ps_idle_server) ∧
    (∀ pipe_sharing access : Nat,
      (∀ t ∈ servers,
        t.state ≠ PipeState.ps_wait_open ∧ t.state ≠ PipeState.ps_idle_server) →
      named_pipe_open_file pipe_sharing access servers =
        ⟨some NtStatus.pipe_not_available, servers, none⟩) ∧
    (∀ pipe_sharing access : Nat, ∀ s, find_available_server servers = some s →
      ((access &&& GENERIC_READ ≠ 0 ∧ pipe_sharing &&& FILE_SHARE_READ = 0) ∨
       (access &&& GENERIC_WRITE ≠ 0 ∧ pipe_sharing &&& FILE_SHARE_WRITE = 0)) →
      named_pipe_open_file pipe_sharing access servers =
        ⟨some NtStatus.access_denied, servers, none⟩) := by
  have hiff : find_available_server servers = none ↔
      ∀ t ∈ servers,
        t.state ≠ PipeState.ps_wait_open ∧ t.state ≠ PipeState.ps_idle_server := by
    cases h1 : servers.find? (fun s => decide (s.state = PipeState.ps_wait_open)) with
    | some s0 =>
        have hm := List.mem_of_find?_eq_some h1
        have hp := List.find?_some h1
        simp only [decide_eq_true_eq] at hp
        simp only [find_available_server, h1]
        constructor
        · intro hfalse; exact absurd hfalse (by simp)
        · intro hall; exact absurd hp (hall s0 hm).1
    | none =>
        cases h2 : servers.find? (fun s => decide (s.state = PipeState.ps_idle_server)) with
        | some s1 =>
            have hm := List.mem_of_find?_eq_some h2
            have hp := List.find?_some h2
            simp only [decide_eq_true_eq] at hp
            simp only [find_available_server, h1, h2]
            constructor
            · intro hfalse; exact absurd hfalse (by simp)
            · intro hall; exact absurd hp (hall s1 hm).2
        | none =>
            have hw := List.find?_eq_none.mp h1
            have hi := List.find?_eq_none.mp h2
            simp only [decide_eq_true_eq] at hw hi
            simp only [find_available_server, h1, h2, true_iff]
            exact fun t ht => ⟨hw t ht, hi t ht⟩
  refine ⟨?_, hiff, ?_, ?_⟩
  · intro s hs
    cases h1 : servers.find? (fun s => decide (s.state = PipeState.ps_wait_open)) with
    | some s0 =>
        simp only [find_available_server, h1, Option.some.injEq] at hs
        subst hs
        have hp := List.find?_some h1
        simp only [decide_eq_true_eq] at hp
        exact ⟨List.mem_of_find?_eq_some h1, Or.inl hp⟩
    | none =>
        simp only [find_available_server, h1] at hs
        have hp := List.find?_some hs
        simp only [decide_eq_true_eq] at hp
        have hw := List.find?_eq_none.mp h1
        simp only [decide_eq_true_eq] at hw
        exact ⟨List.mem_of_find?_eq_some hs, Or.inr ⟨hp, hw⟩⟩
  · intro ps ac hall
    have hn := hiff.mpr hall
    simp only [named_pipe_open_file, hn]
  · intro ps ac s hs hconf
    simp only [named_pipe_open_file, hs, if_pos hconf]

theorem c5_witness :
    named_pipe_open_file FILE_SHARE_READ GENERIC_WRITE
        [⟨7, PipeState.ps_wait_open⟩] =
      ⟨some NtStatus.access_denied, [⟨7, PipeState.ps_wait_open⟩], none⟩ :=
  (c5_open_selection [⟨7, PipeState.ps_wait_open⟩]).2.2.2 FILE_SHARE_READ
    GENERIC_WRITE ⟨7, PipeState.ps_wait_open⟩ (by decide) (by decide)

theorem remainingBytes_length (m : PipeMessage) :
    (remainingBytes m).length = m.remaining := by
  simp [remainingBytes, PipeMessage.remaining, PipeMessage.size]

theorem totalRemaining_cons (m : PipeMessage) (q : List PipeMessage) :
    totalRemaining (m :: q) = m.remaining + totalRemaining q := by
  simp [totalRemaining]

theorem concatRemaining_length (q : List PipeMessage) :
    (concatRemaining q).length = totalRemaining q := by
  induction q with
  | nil => simp [concatRemaining, totalRemaining]
  | cons m rest ih =>
      simp [concatRemaining, totalRemaining_cons, remainingBytes_length, ih]

theorem availLoop_le (req : Nat) :
    ∀ (q : List PipeMessage) (acc : Nat), availLoop req q acc ≤ acc + totalRemaining q := by
  intro q
  induction q with
  | nil => intro acc; simp [availLoop, totalRemaining]
  | cons m rest ih =>
      intro acc
      simp only [availLoop, totalRemaining_cons]
      split
      · omega
      · have := ih (acc + m.remaining)
        omega

theorem availLoop_covers (req : Nat) :
    ∀ (q : List PipeMessage) (acc : Nat),
      req ≤ availLoop req q acc ∨ availLoop req q acc = acc + totalRemaining q := by
  intro q
  induction q with
  | nil => intro acc; right; simp [availLoop, totalRemaining]
  | cons m rest ih =>
      intro acc
      simp only [availLoop, totalRemaining_cons]
      split
      · left; assumption
      · rcases ih (acc + m.remaining) with h | h
        · left; exact h
        · right; omega

theorem min_availLoop (req : Nat) (q : List PipeMessage) :
    min req (availLoop req q 0) = min req (totalRemaining q) := by
  have h1 := availLoop_le req q 0
  rcases availLoop_covers req q 0 with h2 | h2
  · have : req ≤ totalRemaining q := by omega
    omega
  · omega

theorem copyLoop_bytes (out_size : Nat) :
    ∀ (q : List PipeMessage) (wp : Nat),
      (∀ m ∈ q, m.read_pos ≤ m.data.length) →
      out_size - wp ≤ totalRemaining q →
      (copyLoop out_size q wp).1 = (concatRemaining q).take (out_size - wp) := by
  intro q
  induction q with
  | nil =>
      intro wp _ hle
      simp only [totalRemaining, List.map_nil, List.sum_nil, Nat.le_zero] at hle
      simp [copyLoop, concatRemaining, hle]
  | cons m rest ih =>
      intro wp hwf hle
      have hwfm : m.read_pos ≤ m.data.length := hwf m (by simp)
      have hwfr : ∀ x ∈ rest, x.read_pos ≤ x.data.length :=
        fun x hx => hwf x (by simp [hx])
      rw [totalRemaining_cons] at hle
      rw [show m.remaining = m.data.length - m.read_pos from rfl] at hle
      simp only [copyLoop, concatRemaining, PipeMessage.size, remainingBytes]
      rw [List.take_append_eq_append_take, List.length_drop]
      rcases Nat.le_total (out_size - wp) (m.data.length - m.read_pos) with hmin | hmin
      · rw [Nat.min_eq_left hmin]
        by_cases hdone : m.read_pos + (out_size - wp) = m.data.length
        · rw [if_pos hdone, if_neg (show ¬ wp + (out_size - wp) < out_size by omega)]
          rw [show out_size - wp - (m.data.length - m.read_pos) = 0 by omega]
          simp only [List.take_zero, List.append_nil]
        · rw [if_neg hdone]
          rw [show out_size - wp - (m.data.length - m.read_pos) = 0 by omega]
          simp only [List.take_zero, List.append_nil]
      · rw [Nat.min_eq_right hmin]
        by_cases hdone : m.read_pos + (m.data.length - m.read_pos) = m.data.length
        · rw [if_pos hdone]
          by_cases hmore : wp + (m.data.length - m.read_pos) < out_size
          · rw [if_pos hmore]
            dsimp only
            rw [ih (wp + (m.data.length - m.read_pos)) hwfr (by omega)]
            congr 1
            · rw [List.take_of_length_le (by rw [List.length_drop]),
                List.take_of_length_le (by rw [List.length_drop]; omega)]
            · congr 1
              omega
          · rw [if_neg hmore]
            rw [show out_size - wp - (m.data.length - m.read_pos) = 0 by omega]
            simp only [List.take_zero, List.append_nil]
            congr 1
            omega
        · exact absurd (by omega) hdone

theorem wake_message_events (m : PipeMessage) :
    ∀ e ∈ (wake_message m).2,
      (∃ id st, e = PipeEvent.termWrite id st) ∨ ∃ id, e = PipeEvent.releaseAsync id := by
  intro e he
  cases ha : m.async with
  | none => simp [wake_message, ha] at he
  | some aid =>
      simp only [wake_message, ha, List.mem_cons, List.mem_singleton] at he
      rcases he with h | h | h
      · exact Or.inl ⟨aid, _, h⟩
      · exact Or.inr ⟨aid, h⟩
      · simp at h

theorem copyLoop_events (out_size : Nat) :
    ∀ (q : List PipeMessage) (wp : Nat), ∀ e ∈ (copyLoop out_size q wp).2.2,
      (∃ id st, e = PipeEvent.termWrite id st) ∨ ∃ id, e = PipeEvent.releaseAsync id := by
  intro q
  induction q with
  | nil => intro wp e he; simp [copyLoop] at he
  | cons m rest ih =>
      intro wp e he
      simp only [copyLoop] at he
      split at he
      · split at he
        · dsimp only at he
          rw [List.mem_append] at he
          rcases he with h | h
          · exact wake_message_events _ e h
          · exact ih _ e h
        · dsimp only at he
          exact wake_message_events _ e he
      · dsimp only at he
        simp at he

theorem message_queue_read_events (msgRead : Bool) (q : List PipeMessage) (req : Nat) :
    ∀ e ∈ (message_queue_read msgRead q req).events,
      (∃ id st, e = PipeEvent.termWrite id st) ∨ ∃ id, e = PipeEvent.releaseAsync id := by
  intro e he
  cases q with
  | nil => simp [message_queue_read] at he
  | cons head rest =>
      simp only [message_queue_read] at he
      split at he
      · dsimp only at he
        exact wake_message_events _ e he
      · dsimp only at he
        exact copyLoop_events _ _ _ e he

theorem reselectReadLoop_termRead (msgRead : Bool) :
    ∀ (asyncs : List (Nat × Nat)) (q : List PipeMessage) (id : Nat) (st : NtStatus)
      (res : Nat),
      PipeEvent.termRead id st res ∈ (reselectReadLoop msgRead q asyncs).events →
      res ≠ 0 → st = NtStatus.alerted := by
  intro asyncs
  induction asyncs with
  | nil =>
      intro q id st res hmem
      cases q <;> simp [reselectReadLoop] at hmem
  | cons a rest ih =>
      intro q id st res hmem hres
      cases q with
      | nil => simp [reselectReadLoop] at hmem
      | cons m mq =>
          obtain ⟨aid, areq⟩ := a
          simp only [reselectReadLoop] at hmem
          rw [List.mem_append] at hmem
          rcases hmem with h | h
          · rcases message_queue_read_events msgRead (m :: mq) areq _ h with
              ⟨_, _, heq⟩ | ⟨_, heq⟩ <;> simp at heq
          · rw [List.mem_cons] at h
            rcases h with h | h
            · simp only [PipeEvent.termRead.injEq] at h
              obtain ⟨-, hst, hres2⟩ := h
              rw [hst, if_pos (by rw [← hres2]; exact hres)]
            · exact ih _ id st res h hres

theorem msgqr_oz_le_total (msgRead : Bool) (head : PipeMessage)
    (rest : List PipeMessage) (req : Nat) :
    msgqrOutSize msgRead head rest req ≤ totalRemaining (head :: rest) := by
  unfold msgqrOutSize
  split
  · have h1 : min req head.remaining ≤ head.remaining := Nat.min_le_right _ _
    rw [totalRemaining_cons]
    omega
  · have h1 := availLoop_le req (head :: rest) 0
    have h2 : min req (availLoop req (head :: rest) 0) ≤ availLoop req (head :: rest) 0 :=
      Nat.min_le_right _ _
    omega

theorem msgqr_fields (msgRead : Bool) (head : PipeMessage) (rest : List PipeMessage)
    (req : Nat) :
    (message_queue_read msgRead (head :: rest) req).out_size =
      msgqrOutSize msgRead head rest req ∧
    (message_queue_read msgRead (head :: rest) req).result =
      msgqrOutSize msgRead head rest req ∧
    (message_queue_read msgRead (head :: rest) req).status =
      msgqrStatus msgRead head rest req := by
  simp only [message_queue_read]
  split <;> exact ⟨rfl, rfl, rfl⟩

theorem msgqr_out_data (msgRead : Bool) (head : PipeMessage) (rest : List PipeMessage)
    (req : Nat) (hwf : ∀ m ∈ head :: rest, m.read_pos ≤ m.data.length) :
    (message_queue_read msgRead (head :: rest) req).out_data =
      (concatRemaining (head :: rest)).take (msgqrOutSize msgRead head rest req) := by
  have hoz := msgqr_oz_le_total msgRead head rest req
  simp only [message_queue_read]
  split
  · rename_i hfast
    obtain ⟨hp0, hsz⟩ := hfast
    dsimp only
    rw [concatRemaining, remainingBytes, hp0, List.drop_zero, ← hsz,
      show head.size = head.data.length from rfl, List.take_append_eq_append_take,
      List.take_length, Nat.sub_self, List.take_zero, List.append_nil]
  · dsimp only
    have h := copyLoop_bytes (msgqrOutSize msgRead head rest req) (head :: rest) 0 hwf
      (by simpa using hoz)
    simpa using h

/-- Claim C1: a message-mode read on a pipe end with a non-empty message
queue delivers, under message-stream-read, bytes from the head message
only — the minimum of the request and the head's remaining bytes — with
status buffer_overflow exactly when the head's remaining bytes exceed the
request and success otherwise; without message-stream-read it delivers the
concatenation of the queued messages' unread bytes, truncated to the
request, with status success; in both cases the iosb result equals the
number of bytes delivered; and in the read-reselect loop a read async
whose result is non-zero is terminated with status alerted. -/
theorem c1_message_read (msgRead : Bool) (head : PipeMessage)
    (rest : List PipeMessage) (req : Nat)
    (hwf : ∀ m ∈ head :: rest, m.read_pos ≤ m.data.length) :
    ((message_queue_read msgRead (head :: rest) req).result =
       (message_queue_read msgRead (head :: rest) req).out_size ∧
     (message_queue_read msgRead (head :: rest) req).out_data.length =
       (message_queue_read msgRead (head :: rest) req).out_size) ∧
    (msgRead = true →
      (message_queue_read msgRead (head :: rest) req).out_size =
        min req head.remaining ∧
      (message_queue_read msgRead (head :: rest) req).status =
        (if req < head.remaining then NtStatus.buffer_overflow else NtStatus.success) ∧
      (message_queue_read msgRead (head :: rest) req).out_data =
        (remainingBytes head).take (min req head.remaining)) ∧
    (msgRead = false →
      (message_queue_read msgRead (head :: rest) req).out_size =
        min req (totalRemaining (head :: rest)) ∧
      (message_queue_read msgRead (head :: rest) req).status = NtStatus.success ∧
      (message_queue_read msgRead (head :: rest) req).out_data =
        (concatRemaining (head :: rest)).take (min req (totalRemaining (head :: rest)))) ∧
    (∀ (q : List PipeMessage) (asyncs : List (Nat × Nat)) (id : Nat) (st : NtStatus)
       (res : Nat),
      PipeEvent.termRead id st res ∈ (reselectReadLoop msgRead q asyncs).events →
      res ≠ 0 → st = NtStatus.alerted) := by
  obtain ⟨hsz, hres, hst⟩ := msgqr_fields msgRead head rest req
  have hdata := msgqr_out_data msgRead head rest req hwf
  have hoz := msgqr_oz_le_total msgRead head rest req
  have hwfm : head.read_pos ≤ head.data.length := hwf head (by simp)
  refine ⟨⟨by rw [hsz, hres], ?_⟩, ?_, ?_, ?_⟩
  · rw [hsz, hdata, List.length_take, concatRemaining_length]
    omega
  · intro hmr
    subst hmr
    have hozv : msgqrOutSize true head rest req = min req head.remaining := by
      simp [msgqrOutSize]
    refine ⟨by rw [hsz, hozv], ?_, ?_⟩
    · rw [hst]
      have hcond : (head.read_pos + msgqrOutSize true head rest req < head.size) ↔
          (req < head.remaining) := by
        rw [hozv]
        simp only [PipeMessage.remaining, PipeMessage.size]
        omega
      have hstv : msgqrStatus true head rest req =
          (if head.read_pos + msgqrOutSize true head rest req < head.size then
            NtStatus.buffer_overflow
           else NtStatus.success) := by
        simp [msgqrStatus]
      rw [hstv]
      exact if_congr hcond rfl rfl
    · rw [hdata, hozv, concatRemaining, List.take_append_eq_append_take,
        remainingBytes_length,
        show min req head.remaining - head.remaining = 0 by omega,
        List.take_zero, List.append_nil]
  · intro hmr
    subst hmr
    have hozv : msgqrOutSize false head rest req =
        min req (totalRemaining (head :: rest)) := by
      simp only [msgqrOutSize, Bool.false_eq_true, if_false]
      exact min_availLoop req (head :: rest)
    refine ⟨by rw [hsz, hozv], ?_, by rw [hdata, hozv]⟩
    rw [hst]
    simp [msgqrStatus]
  · exact fun q asyncs id st res h h0 =>
      reselectReadLoop_termRead msgRead asyncs q id st res h h0

theorem c1_witness :
    (message_queue_read true
        [⟨0, [1, 2, 3], NtStatus.pending, 0, some 9⟩] 2).out_size =
      min 2 (⟨0, [1, 2, 3], NtStatus.pending, 0, some 9⟩ : PipeMessage).remaining :=
  ((c1_message_read true ⟨0, [1, 2, 3], NtStatus.pending, 0, some 9⟩ [] 2
      (by decide)).2.1 rfl).1

theorem wake_message_fst (m : PipeMessage) :
    (wake_message m).1 =
      { m with status := NtStatus.success, result := m.size, async := none } := by
  cases h : m.async <;> simp [wake_message, h]

theorem reselectWriteWalk_queue (bufsz : Nat) :
    ∀ (q : List PipeMessage) (avail : Nat),
      (reselectWriteWalk bufsz q avail).1 = keptQueueSpec bufsz avail q := by
  intro q
  induction q with
  | nil => intro avail; simp [reselectWriteWalk, keptQueueSpec]
  | cons m rest ih =>
      intro avail
      simp only [reselectWriteWalk, keptQueueSpec]
      split
      · exact ih avail
      · split
        · dsimp only
          rw [wake_message_fst, ih (avail + m.remaining)]
        · dsimp only
          rw [ih (avail + m.remaining)]

theorem keptQueueSpec_clean (bufsz : Nat) :
    ∀ (q : List PipeMessage) (avail : Nat), ∀ m' ∈ keptQueueSpec bufsz avail q,
      ¬(m'.async.isSome ∧ m'.status ≠ NtStatus.pending) := by
  intro q
  induction q with
  | nil => intro avail m' hm; simp [keptQueueSpec] at hm
  | cons m rest ih =>
      intro avail m' hm
      simp only [keptQueueSpec] at hm
      split at hm
      · exact ih avail m' hm
      · rename_i hfree
        rw [List.mem_cons] at hm
        rcases hm with rfl | hm
        · split
          · rename_i hwake
            simp
          · exact hfree
        · exact ih (avail + m.remaining) m' hm

theorem reselectWriteWalk_release (bufsz : Nat) :
    ∀ (q : List PipeMessage) (avail : Nat), ∀ m ∈ q, ∀ aid : Nat,
      m.async = some aid → m.status ≠ NtStatus.pending →
      PipeEvent.releaseAsync aid ∈ (reselectWriteWalk bufsz q avail).2 := by
  intro q
  induction q with
  | nil => intro avail m hm; simp at hm
  | cons m0 rest ih =>
      intro avail m hm aid ha hs
      rw [List.mem_cons] at hm
      simp only [reselectWriteWalk]
      rcases hm with rfl | hm
      · rw [if_pos ⟨by simp [ha], hs⟩]
        dsimp only
        rw [List.mem_append]
        left
        simp [ha]
      · split
        · dsimp only
          rw [List.mem_append]
          exact Or.inr (ih avail m hm aid ha hs)
        · split
          · dsimp only
            rw [List.mem_append]
            exact Or.inr (ih (avail + m0.remaining) m hm aid ha hs)
          · dsimp only
            exact ih (avail + m0.remaining) m hm aid ha hs

theorem reselectWriteWalk_wake (bufsz : Nat) :
    ∀ (q : List PipeMessage) (avail : Nat) (i : Nat) (h : i < q.length),
      (q.get ⟨i, h⟩).status = NtStatus.pending →
      (runningAvail avail q i ≤ bufsz ∨ (q.get ⟨i, h⟩).size = 0) →
      ∀ aid : Nat, (q.get ⟨i, h⟩).async = some aid →
      PipeEvent.termWrite aid
          (if (q.get ⟨i, h⟩).size ≠ 0 then NtStatus.alerted else NtStatus.success) ∈
        (reselectWriteWalk bufsz q avail).2 ∧
      PipeEvent.releaseAsync aid ∈ (reselectWriteWalk bufsz q avail).2 := by
  intro q
  induction q with
  | nil => intro avail i h; exact absurd h (by simp)
  | cons m rest ih =>
      intro avail i h hpend hcond aid ha
      cases i with
      | zero =>
          simp only [List.get] at hpend hcond ha ⊢
          have hnfree : ¬(m.async.isSome ∧ m.status ≠ NtStatus.pending) := by
            intro hc
            exact hc.2 hpend
          have hravail : runningAvail avail (m :: rest) 0 = avail + m.remaining := by
            simp only [runningAvail]
            rw [if_neg hnfree]
          rw [hravail] at hcond
          simp only [reselectWriteWalk]
          rw [if_neg hnfree, if_pos ⟨hpend, hcond⟩]
          dsimp only
          constructor
          · rw [List.mem_append]
            left
            simp [wake_message, ha]
          · rw [List.mem_append]
            left
            simp [wake_message, ha]
      | succ j =>
          have hj : j < rest.length := by simpa using h
          have hget : (m :: rest).get ⟨j + 1, h⟩ = rest.get ⟨j, hj⟩ := rfl
          rw [hget] at hpend hcond ha ⊢
          by_cases hfree : m.async.isSome ∧ m.status ≠ NtStatus.pending
          · have hravail : runningAvail avail (m :: rest) (j + 1) =
                runningAvail avail rest j := by
              simp only [runningAvail]
              rw [if_pos hfree]
            rw [hravail] at hcond
            simp only [reselectWriteWalk]
            rw [if_pos hfree]
            dsimp only
            obtain ⟨h1, h2⟩ := ih avail j hj hpend hcond aid ha
            constructor
            · rw [List.mem_append]; exact Or.inr h1
            · rw [List.mem_append]; exact Or.inr h2
          · have hravail : runningAvail avail (m :: rest) (j + 1) =
                runningAvail (avail + m.remaining) rest j := by
              simp only [runningAvail]
              rw [if_neg hfree]
            rw [hravail] at hcond
            simp only [reselectWriteWalk]
            rw [if_neg hfree]
            obtain ⟨h1, h2⟩ := ih (avail + m.remaining) j hj hpend hcond aid ha
            split
            · dsimp only
              constructor
              · rw [List.mem_append]; exact Or.inr h1
              · rw [List.mem_append]; exact Or.inr h2
            · dsimp only
              exact ⟨h1, h2⟩

/-- Claim C3: the write-reselect walk over the reader's queue removes
every message that still carries its writer async once its iosb status is
no longer pending, releasing that async; the queue it leaves behind is
exactly the one described by the specification's words (keptQueueSpec): a
pending message is woken — iosb status success, result the full message
size, async detached — exactly when the running sum of remaining bytes
stays within the reader's buffer_size budget or the message is
zero-length, with the writer async terminated with alerted for a non-empty
message and success for an empty one; and reselect_write_queue is the walk
followed by a read-reselect of the reader. -/
theorem c3_reselect_write (bufsz : Nat) (q : List PipeMessage) :
    (reselectWriteWalk bufsz q 0).1 = keptQueueSpec bufsz 0 q ∧
    (∀ m' ∈ (reselectWriteWalk bufsz q 0).1,
      ¬(m'.async.isSome ∧ m'.status ≠ NtStatus.pending)) ∧
    (∀ m ∈ q, ∀ aid : Nat, m.async = some aid → m.status ≠ NtStatus.pending →
      PipeEvent.releaseAsync aid ∈ (reselectWriteWalk bufsz q 0).2) ∧
    (∀ (i : Nat) (h : i < q.length), (q.get ⟨i, h⟩).status = NtStatus.pending →
      (runningAvail 0 q i ≤ bufsz ∨ (q.get ⟨i, h⟩).size = 0) →
      ∀ aid : Nat, (q.get ⟨i, h⟩).async = some aid →
      PipeEvent.termWrite aid
          (if (q.get ⟨i, h⟩).size ≠ 0 then NtStatus.alerted else NtStatus.success) ∈
        (reselectWriteWalk bufsz q 0).2 ∧
      PipeEvent.releaseAsync aid ∈ (reselectWriteWalk bufsz q 0).2) ∧
    (∀ (fuel : Nat) (reader : ReaderState),
      reselect_write_queue fuel (some reader) =
        match reselect_read_queue fuel ⟨reader.msgRead, reader.bufsz, reader.hasConn,
            (reselectWriteWalk reader.bufsz reader.queue 0).1, reader.read_q⟩ with
        | none => none
        | some (st2, evs2) =>
            some (some st2, (reselectWriteWalk reader.bufsz reader.queue 0).2 ++ evs2)) := by
  refine ⟨reselectWriteWalk_queue bufsz q 0, ?_, reselectWriteWalk_release bufsz q 0,
    reselectWriteWalk_wake bufsz q 0, ?_⟩
  · intro m' hm'
    rw [reselectWriteWalk_queue] at hm'
    exact keptQueueSpec_clean bufsz q 0 m' hm'
  · intro fuel reader
    rfl

theorem c3_witness :
    PipeEvent.releaseAsync 3 ∈
      (reselectWriteWalk 8 [⟨0, [5], NtStatus.success, 1, some 3⟩] 0).2 :=
  (c3_reselect_write 8 [⟨0, [5], NtStatus.success, 1, some 3⟩]).2.2.1
    ⟨0, [5], NtStatus.success, 1, some 3⟩ (by decide) 3 rfl (by decide)

theorem reselectReadLoop_no_flush (msgRead : Bool) :
    ∀ (asyncs : List (Nat × Nat)) (q : List PipeMessage) (s : NtStatus),
      PipeEvent.flushWake s ∉ (reselectReadLoop msgRead q asyncs).events := by
  intro asyncs
  induction asyncs with
  | nil =>
      intro q s hmem
      cases q <;> simp [reselectReadLoop] at hmem
  | cons a rest ih =>
      intro q s hmem
      cases q with
      | nil => simp [reselectReadLoop] at hmem
      | cons m mq =>
          obtain ⟨aid, areq⟩ := a
          simp only [reselectReadLoop] at hmem
          rw [List.mem_append] at hmem
          rcases hmem with h | h
          · rcases message_queue_read_events msgRead (m :: mq) areq _ h with
              ⟨_, _, heq⟩ | ⟨_, heq⟩ <;> simp at heq
          · rw [List.mem_cons] at h
            rcases h with h | h
            · simp at h
            · exact ih _ s h

theorem reselectWriteWalk_no_flush (bufsz : Nat) :
    ∀ (q : List PipeMessage) (avail : Nat) (s : NtStatus),
      PipeEvent.flushWake s ∉ (reselectWriteWalk bufsz q avail).2 := by
  intro q
  induction q with
  | nil => intro avail s hmem; simp [reselectWriteWalk] at hmem
  | cons m rest ih =>
      intro avail s hmem
      simp only [reselectWriteWalk] at hmem
      split at hmem
      · dsimp only at hmem
        rw [List.mem_append] at hmem
        rcases hmem with h | h
        · cases ha : m.async <;> rw [ha] at h <;> simp at h
        · exact ih avail s h
      · split at hmem
        · dsimp only at hmem
          rw [List.mem_append] at hmem
          rcases hmem with h | h
          · rcases wake_message_events m _ h with ⟨_, _, heq⟩ | ⟨_, heq⟩ <;> simp at heq
          · exact ih (avail + m.remaining) s h
        · dsimp only at hmem
          exact ih (avail + m.remaining) s hmem

theorem reselect_read_flush :
    ∀ (fuel : Nat) (st res : ReaderState) (evs : List PipeEvent) (s : NtStatus),
      reselect_read_queue fuel st = some (res, evs) →
      PipeEvent.flushWake s ∈ evs →
      s = NtStatus.success ∧ res.queue = [] ∧ st.hasConn = true := by
  intro fuel
  induction fuel with
  | zero => intro st res evs s heq; simp [reselect_read_queue] at heq
  | succ n ih =>
      intro st res evs s heq hmem
      simp only [reselect_read_queue] at heq
      split at heq
      · rename_i hconn
        split at heq
        · rename_i hq
          simp only [Option.some.injEq, Prod.mk.injEq] at heq
          obtain ⟨hres, hevs⟩ := heq
          rw [← hevs, List.mem_append] at hmem
          rcases hmem with h | h
          · exact absurd h (reselectReadLoop_no_flush st.msgRead st.read_q st.queue s)
          · rw [List.mem_singleton] at h
            simp only [PipeEvent.flushWake.injEq] at h
            refine ⟨h, ?_, hconn⟩
            rw [← hres]
            exact hq
        · split at heq
          · split at heq
            · exact absurd heq (by simp)
            · rename_i st3 evs3 hrec
              simp only [Option.some.injEq, Prod.mk.injEq] at heq
              obtain ⟨hres, hevs⟩ := heq
              rw [← hevs, List.mem_append, List.mem_append] at hmem
              rcases hmem with (h | h) | h
              · exact absurd h (reselectReadLoop_no_flush st.msgRead st.read_q st.queue s)
              · exact absurd h (reselectWriteWalk_no_flush st.bufsz _ 0 s)
              · obtain ⟨h1, h2, -⟩ := ih _ st3 evs3 s hrec h
                exact ⟨h1, by rw [← hres]; exact h2, hconn⟩
          · simp only [Option.some.injEq, Prod.mk.injEq] at heq
            obtain ⟨hres, hevs⟩ := heq
            rw [← hevs] at hmem
            exact absurd hmem (reselectReadLoop_no_flush st.msgRead st.read_q st.queue s)
      · simp only [Option.some.injEq, Prod.mk.injEq] at heq
        obtain ⟨hres, hevs⟩ := heq
        rw [← hevs] at hmem
        exact absurd hmem (reselectReadLoop_no_flush st.msgRead st.read_q st.queue s)

theorem msgTermEvents_no_flush (st : NtStatus) :
    ∀ (q : List PipeMessage) (s : NtStatus), PipeEvent.flushWake s ∉ msgTermEvents st q := by
  intro q
  induction q with
  | nil => intro s hmem; simp [msgTermEvents] at hmem
  | cons m rest ih =>
      intro s hmem
      simp only [msgTermEvents] at hmem
      rw [List.mem_append] at hmem
      rcases hmem with h | h
      · cases ha : m.async <;> rw [ha] at h <;> simp at h
      · exact ih s h

theorem disconnect_local_flush (d : EndData) (st : NtStatus) (s : NtStatus)
    (h : PipeEvent.flushWake s ∈ (disconnect_local d st).2) : s = st := by
  by_cases hmw : d.msgWrite
  · simp only [disconnect_local, if_pos hmw] at h
    rw [List.mem_append] at h
    rcases h with h | h
    · rw [List.mem_append] at h
      rcases h with h | h
      · split at h
        · rw [List.mem_singleton] at h
          simpa using h
        · simp at h
      · simp at h
    · exact absurd h (msgTermEvents_no_flush st (d.queue.filter (fun m => m.async.isSome)) s)
  · simp only [disconnect_local, if_neg hmw] at h
    simp at h

theorem pipe_end_disconnect_flush :
    ∀ (fuel : Nat) (w : World) (e : Nat) (st : NtStatus) (pr : World × List PipeEvent)
      (s : NtStatus),
      pipe_end_disconnect fuel w e st = some pr →
      PipeEvent.flushWake s ∈ pr.2 → s = st := by
  intro fuel
  induction fuel with
  | zero => intro w e st pr s heq; simp [pipe_end_disconnect] at heq
  | succ n ih =>
      intro w e st pr s heq hmem
      simp only [pipe_end_disconnect] at heq
      split at heq
      · simp only [Option.some.injEq] at heq
        rw [← heq] at hmem
        simp at hmem
      · rename_i d hwe
        split at heq
        · simp only [Option.some.injEq] at heq
          rw [← heq] at hmem
          exact disconnect_local_flush _ st s hmem
        · rename_i p hcp
          split at heq
          · exact absurd heq (by simp)
          · rename_i pr2 hrec
            simp only [Option.some.injEq] at heq
            rw [← heq] at hmem
            dsimp only at hmem
            rw [List.mem_append] at hmem
            rcases hmem with h | h
            · exact disconnect_local_flush _ st s h
            · exact ih _ p st pr2 s hrec h

/-- Counterexample to claim C7 as stated: its first clause covers every
flush, but a byte-mode client flush (the FIXME at named_pipe.c:687)
returns synchronously with no error — completing the flush with success —
even while the peer's queue still holds an unconsumed message. -/
theorem c7_counterexample :
    pipe_client_flush false (some [⟨0, [1], NtStatus.pending, 0, some 4⟩]) =
      FlushOutcome.syncComplete ∧
    some [(⟨0, [1], NtStatus.pending, 0, some 4⟩ : PipeMessage)] ≠
      (none : Option (List PipeMessage)) ∧
    some [(⟨0, [1], NtStatus.pending, 0, some 4⟩ : PipeMessage)] ≠
      some ([] : List PipeMessage) := by
  refine ⟨rfl, by decide, by decide⟩

/-- Claim C7 as amended — restricted to message mode: a message-mode
flush completes synchronously exactly when the peer is gone or the peer's
message queue is empty (for both pipe_end_flush and pipe_client_flush); a
pending flush is woken with success by the read reselect only in a state
whose message queue has fully drained; and teardown never completes a
flush with success when the teardown status is not success — so a
message-mode flush async never completes with success while the peer
still holds queued data. -/
theorem c7_flush_drain :
    (∀ connQueue : Option (List PipeMessage),
      (pipe_end_flush true connQueue = FlushOutcome.syncComplete ↔
        (connQueue = none ∨ connQueue = some [])) ∧
      (pipe_client_flush true connQueue = FlushOutcome.syncComplete ↔
        (connQueue = none ∨ connQueue = some []))) ∧
    (∀ (fuel : Nat) (st res : ReaderState) (evs : List PipeEvent) (s : NtStatus),
      reselect_read_queue fuel st = some (res, evs) →
      PipeEvent.flushWake s ∈ evs → s = NtStatus.success ∧ res.queue = []) ∧
    (∀ (w : World) (e : Nat) (st : NtStatus), st ≠ NtStatus.success →
      PipeEvent.flushWake NtStatus.success ∉ (pipe_end_disconnectW w e st).2) := by
  refine ⟨fun connQueue => ?_, fun fuel st res evs s heq hmem => ?_, fun w e st hne hmem => ?_⟩
  · have hend : pipe_end_flush true connQueue = FlushOutcome.syncComplete ↔
        (connQueue = none ∨ connQueue = some []) := by
      by_cases hc : connQueue = none ∨ connQueue = some []
      · simp [pipe_end_flush, hc]
      · simp [pipe_end_flush, hc]
    exact ⟨hend, by rw [pipe_client_flush, if_pos rfl]; exact hend⟩
  · obtain ⟨h1, h2, -⟩ := reselect_read_flush fuel st res evs s heq hmem
    exact ⟨h1, h2⟩
  · rw [pipe_end_disconnectW] at hmem
    cases hd : pipe_end_disconnect 2 w e st with
    | none => rw [hd] at hmem; simp at hmem
    | some pr =>
        rw [hd] at hmem
        exact hne ((pipe_end_disconnect_flush 2 w e st pr NtStatus.success hd
          (by simpa using hmem))).symm

theorem c7_witness :
    pipe_end_flush true (some []) = FlushOutcome.syncComplete :=
  ((c7_flush_drain.1 (some [])).1).mpr (Or.inr rfl)

theorem disconnect_local_conn (d : EndData) (st : NtStatus) :
    ((disconnect_local d st).1).conn = d.conn := by
  by_cases h : d.msgWrite <;> simp [disconnect_local, h]

theorem setEnd_same (w : World) (e : Nat) (d : Option EndData) : setEnd w e d e = d := by
  simp [setEnd]

theorem setEnd_other (w : World) (e : Nat) (d : Option EndData) (x : Nat) (h : x ≠ e) :
    setEnd w e d x = w x := by
  simp [setEnd, h]

theorem setConn_eval (w : World) (e : Nat) (c : Option Nat) (x : Nat) :
    setConn w e c x = if x = e then (w x).map (fun d => { d with conn := c }) else w x :=
  rfl

theorem disconnectW_cases (w : World) (e : Nat) (st : NtStatus) :
    (w e = none ∧ (pipe_end_disconnectW w e st).1 = w) ∨
    (∃ d, w e = some d ∧ d.conn = none ∧
      (pipe_end_disconnectW w e st).1 =
        setEnd w e (some (disconnect_local { d with conn := none } st).1)) ∨
    (∃ d p, w e = some d ∧ d.conn = some p ∧
      (((setConn (setEnd w e (some (disconnect_local { d with conn := none } st).1)) p none) p
          = none ∧
        (pipe_end_disconnectW w e st).1 =
          setConn (setEnd w e (some (disconnect_local { d with conn := none } st).1)) p none) ∨
      (∃ d2,
        (setConn (setEnd w e (some (disconnect_local { d with conn := none } st).1)) p none) p
          = some d2 ∧ d2.conn = none ∧
        (pipe_end_disconnectW w e st).1 =
          setEnd
            (setConn (setEnd w e (some (disconnect_local { d with conn := none } st).1)) p none)
            p (some (disconnect_local { d2 with conn := none } st).1)))) := by
  cases hwe : w e with
  | none =>
      left
      exact ⟨rfl, by simp [pipe_end_disconnectW, pipe_end_disconnect, hwe]⟩
  | some d =>
      right
      cases hcd : d.conn with
      | none =>
          left
          exact ⟨d, rfl, hcd, by simp [pipe_end_disconnectW, pipe_end_disconnect, hwe, hcd]⟩
      | some p =>
          right
          refine ⟨d, p, rfl, hcd, ?_⟩
          cases hw2p : (setConn (setEnd w e
              (some (disconnect_local { d with conn := none } st).1)) p none) p with
          | none =>
              left
              refine ⟨rfl, ?_⟩
              simp only [pipe_end_disconnectW, pipe_end_disconnect, hwe, hcd, hw2p,
                Option.getD_some]
          | some d2 =>
              right
              have hc2 : d2.conn = none := by
                rw [setConn_eval] at hw2p
                rw [if_pos rfl] at hw2p
                cases hx : (setEnd w e
                    (some (disconnect_local { d with conn := none } st).1)) p with
                | none => rw [hx] at hw2p; simp at hw2p
                | some d1 =>
                    rw [hx] at hw2p
                    simp at hw2p
                    rw [← hw2p]
              refine ⟨d2, rfl, hc2, ?_⟩
              simp only [pipe_end_disconnectW, pipe_end_disconnect, hwe, hcd, hw2p, hc2,
                Option.getD_some]

theorem connOf_setEnd_same (w : World) (e : Nat) (d : Option EndData) :
    connOf (setEnd w e d) e = d.bind EndData.conn := by
  simp [connOf, setEnd]

theorem connOf_setEnd_other (w : World) (e : Nat) (d : Option EndData) (x : Nat)
    (h : x ≠ e) : connOf (setEnd w e d) x = connOf w x := by
  simp [connOf, setEnd, h]

theorem connOf_setConn_same (w : World) (e : Nat) (c : Option Nat) (d : EndData)
    (h : w e = some d) : connOf (setConn w e c) e = c := by
  simp [connOf, setConn, h]

theorem connOf_setConn_other (w : World) (e : Nat) (c : Option Nat) (x : Nat)
    (h : x ≠ e) : connOf (setConn w e c) x = connOf w x := by
  simp [connOf, setConn, h]

theorem isSome_setConn (w : World) (e : Nat) (c : Option Nat) (x : Nat) :
    ((setConn w e c) x).isSome = (w x).isSome := by
  rw [setConn_eval]
  split
  · cases w x <;> simp
  · rfl

theorem isSome_setEnd (w : World) (e : Nat) (d : Option EndData) (x : Nat) :
    ((setEnd w e d) x).isSome = if x = e then d.isSome else (w x).isSome := by
  simp only [setEnd]
  split <;> rfl

theorem disconnectW_isSome (w : World) (e : Nat) (st : NtStatus) (x : Nat) :
    ((pipe_end_disconnectW w e st).1 x).isSome = (w x).isSome := by
  rcases disconnectW_cases w e st with ⟨hwe, hfin⟩ | ⟨d, hwe, hcd, hfin⟩ |
    ⟨d, p, hwe, hcd, ⟨hw2p, hfin⟩ | ⟨d2, hw2p, hc2, hfin⟩⟩
  · rw [hfin]
  · rw [hfin, isSome_setEnd]
    split
    · rename_i hx
      rw [hx, hwe]
      rfl
    · rfl
  · rw [hfin, isSome_setConn, isSome_setEnd]
    split
    · rename_i hx
      rw [hx, hwe]
      rfl
    · rfl
  · rw [hfin, isSome_setEnd]
    split
    · rename_i hx
      subst hx
      have h1 : ((setConn (setEnd w e
          (some (disconnect_local { d with conn := none } st).1)) x none) x).isSome =
          (w x).isSome := by
        rw [isSome_setConn, isSome_setEnd]
        split
        · rename_i hx2
          rw [hx2, hwe]
          rfl
        · rfl
      rw [hw2p] at h1
      exact h1.symm ▸ rfl
    · rw [isSome_setConn, isSome_setEnd]
      split
      · rename_i hx2
        rw [hx2, hwe]
        rfl
      · rfl

theorem disconnectW_conn (w : World) (e : Nat) (st : NtStatus) (x : Nat) :
    connOf (pipe_end_disconnectW w e st).1 x =
      if x = e ∨ connOf w e = some x then none else connOf w x := by
  rcases disconnectW_cases w e st with ⟨hwe, hfin⟩ | ⟨d, hwe, hcd, hfin⟩ |
    ⟨d, p, hwe, hcd, ⟨hw2p, hfin⟩ | ⟨d2, hw2p, hc2, hfin⟩⟩
  · have hce : connOf w e = none := by simp [connOf, hwe]
    rw [hfin, hce]
    by_cases hx : x = e
    · subst hx
      simp [hce]
    · simp [hx]
  · have hce : connOf w e = none := by simp [connOf, hwe, hcd]
    rw [hfin, hce]
    by_cases hx : x = e
    · subst hx
      rw [connOf_setEnd_same]
      simp [disconnect_local_conn]
    · rw [connOf_setEnd_other _ _ _ _ hx]
      simp [hx]
  · have hce : connOf w e = some p := by simp [connOf, hwe, hcd]
    rw [hfin, hce]
    by_cases hxp : x = p
    · subst hxp
      rw [show connOf (setConn (setEnd w e
          (some (disconnect_local { d with conn := none } st).1)) x none) x = none from
        setConn_connOf_self _ x]
      simp
    · rw [connOf_setConn_other _ _ _ _ hxp]
      by_cases hx : x = e
      · subst hx
        rw [connOf_setEnd_same]
        simp [disconnect_local_conn]
      · rw [connOf_setEnd_other _ _ _ _ hx]
        have hcond : ¬(x = e ∨ (some p : Option Nat) = some x) := by
          rintro (h | h)
          · exact hx h
          · exact hxp (Option.some.inj h).symm
        rw [if_neg hcond]
  · have hce : connOf w e = some p := by simp [connOf, hwe, hcd]
    rw [hfin, hce]
    by_cases hxp : x = p
    · subst hxp
      rw [connOf_setEnd_same]
      simp [disconnect_local_conn]
    · rw [connOf_setEnd_other _ _ _ _ hxp, connOf_setConn_other _ _ _ _ hxp]
      by_cases hx : x = e
      · subst hx
        rw [connOf_setEnd_same]
        simp [disconnect_local_conn]
      · rw [connOf_setEnd_other _ _ _ _ hx]
        have hcond : ¬(x = e ∨ (some p : Option Nat) = some x) := by
          rintro (h | h)
          · exact hx h
          · exact hxp (Option.some.inj h).symm
        rw [if_neg hcond]

theorem symInv_disconnect (w : World) (e : Nat) (st : NtStatus) (h : SymInv w) :
    SymInv (pipe_end_disconnectW w e st).1 := by
  intro x y hxy
  rw [disconnectW_conn] at hxy
  by_cases hcond : x = e ∨ connOf w e = some x
  · rw [if_pos hcond] at hxy
    exact absurd hxy (by simp)
  · rw [if_neg hcond] at hxy
    push_neg at hcond
    obtain ⟨hxe, hxc⟩ := hcond
    obtain ⟨hys, hyx⟩ := h x y hxy
    have hye : y ≠ e := by
      intro hy
      subst hy
      exact hxc hyx
    have hyp : connOf w e ≠ some y := by
      intro hcey
      obtain ⟨-, hy2⟩ := h e y hcey
      rw [hyx] at hy2
      exact hxe (Option.some.inj hy2)
    constructor
    · rw [disconnectW_isSome]
      exact hys
    · rw [disconnectW_conn]
      rw [if_neg (by rintro (h1 | h1); exacts [hye h1, hyp h1])]
      exact hyx

theorem symInv_create (w : World) (e : Nat) (mw fd sg : Bool) (hnone : w e = none)
    (h : SymInv w) : SymInv (setEnd w e (some ⟨mw, none, [], fd, sg⟩)) := by
  intro x y hxy
  by_cases hx : x = e
  · subst hx
    rw [connOf_setEnd_same] at hxy
    simp at hxy
  · rw [connOf_setEnd_other _ _ _ _ hx] at hxy
    obtain ⟨hys, hyx⟩ := h x y hxy
    have hye : y ≠ e := by
      intro hy
      subst hy
      rw [hnone] at hys
      simp at hys
    constructor
    · rw [isSome_setEnd, if_neg hye]
      exact hys
    · rw [connOf_setEnd_other _ _ _ _ hye]
      exact hyx

theorem symInv_pair (w : World) (a b : Nat) (da db : EndData) (hab : a ≠ b)
    (hwa : w a = some da) (hwb : w b = some db) (hca : da.conn = none)
    (hcb : db.conn = none) (h : SymInv w) :
    SymInv (setConn (setConn w a (some b)) b (some a)) := by
  have hba : b ≠ a := fun hx => hab hx.symm
  have hconnB : connOf (setConn (setConn w a (some b)) b (some a)) b = some a := by
    apply connOf_setConn_same _ _ _ db
    rw [setConn_eval, if_neg hba]
    exact hwb
  have hconnA : connOf (setConn (setConn w a (some b)) b (some a)) a = some b := by
    rw [connOf_setConn_other _ _ _ _ hab]
    exact connOf_setConn_same _ _ _ da hwa
  have hsome : ∀ z, ((setConn (setConn w a (some b)) b (some a)) z).isSome =
      (w z).isSome := by
    intro z
    rw [isSome_setConn, isSome_setConn]
  intro x y hxy
  by_cases hxa : x = a
  · subst hxa
    rw [hconnA] at hxy
    obtain rfl : b = y := Option.some.inj hxy
    refine ⟨by rw [hsome, hwb]; rfl, hconnB⟩
  · by_cases hxb : x = b
    · subst hxb
      rw [hconnB] at hxy
      obtain rfl : a = y := Option.some.inj hxy
      refine ⟨by rw [hsome, hwa]; rfl, hconnA⟩
    · rw [connOf_setConn_other _ _ _ _ hxb, connOf_setConn_other _ _ _ _ hxa] at hxy
      obtain ⟨hys, hyx⟩ := h x y hxy
      have hya : y ≠ a := by
        intro hy
        subst hy
        rw [show connOf w y = none by simp [connOf, hwa, hca]] at hyx
        exact absurd hyx (by simp)
      have hyb : y ≠ b := by
        intro hy
        subst hy
        rw [show connOf w y = none by simp [connOf, hwb, hcb]] at hyx
        exact absurd hyx (by simp)
      refine ⟨by rw [hsome]; exact hys, ?_⟩
      rw [connOf_setConn_other _ _ _ _ hyb, connOf_setConn_other _ _ _ _ hya]
      exact hyx

theorem symInv_destroy (w : World) (e : Nat) (st : NtStatus) (h : SymInv w) :
    SymInv (setEnd (pipe_end_disconnectW w e st).1 e none) := by
  have h1 := symInv_disconnect w e st h
  intro x y hxy
  by_cases hx : x = e
  · subst hx
    rw [connOf_setEnd_same] at hxy
    simp at hxy
  · rw [connOf_setEnd_other _ _ _ _ hx] at hxy
    obtain ⟨hys, hyx⟩ := h1 x y hxy
    have hye : y ≠ e := by
      intro hy
      subst hy
      rw [disconnectW_conn, if_pos (Or.inl rfl)] at hyx
      exact absurd hyx (by simp)
    constructor
    · rw [isSome_setEnd, if_neg hye]
      exact hys
    · rw [connOf_setEnd_other _ _ _ _ hye]
      exact hyx

theorem symInv_step (w w' : World) (hs : Step w w') (h : SymInv w) : SymInv w' := by
  cases hs with
  | create e mw fd sg hnone => exact symInv_create w e mw fd sg hnone h
  | pair a b da db hab hwa hwb hca hcb => exact symInv_pair w a b da db hab hwa hwb hca hcb h
  | disconnect e st => exact symInv_disconnect w e st h
  | destroy e => exact symInv_destroy w e NtStatus.pipe_broken h

/-- Claim C2: in every world reachable by the connection-graph operations
of named_pipe.c — end creation, the pairing step of named_pipe_open_file,
pipe_end_disconnect and end destruction — every connection edge points to
a live end whose connection edge points back: the symmetry invariant holds
of every reachable state. -/
theorem c2_connection_symmetry (w : World) (h : Reachable w) : SymInv w := by
  induction h with
  | init =>
      intro x y hxy
      simp [connOf, initWorld] at hxy
  | step hr hs ih => exact symInv_step _ _ hs ih

theorem c2_witness :
    Reachable (setConn (setConn (setEnd (setEnd initWorld 0
        (some ⟨true, none, [], false, false⟩)) 1 (some ⟨true, none, [], false, false⟩))
        0 (some 1)) 1 (some 0)) ∧
    SymInv (setConn (setConn (setEnd (setEnd initWorld 0
        (some ⟨true, none, [], false, false⟩)) 1 (some ⟨true, none, [], false, false⟩))
        0 (some 1)) 1 (some 0)) := by
  have h0 : Reachable (setEnd initWorld 0 (some ⟨true, none, [], false, false⟩)) :=
    Reachable.step Reachable.init (Step.create initWorld 0 true false false rfl)
  have h1 : Reachable (setEnd (setEnd initWorld 0 (some ⟨true, none, [], false, false⟩)) 1
      (some ⟨true, none, [], false, false⟩)) :=
    Reachable.step h0 (Step.create _ 1 true false false rfl)
  have h2 : Reachable (setConn (setConn (setEnd (setEnd initWorld 0
      (some ⟨true, none, [], false, false⟩)) 1 (some ⟨true, none, [], false, false⟩))
      0 (some 1)) 1 (some 0)) :=
    Reachable.step h1 (Step.pair _ 0 1 ⟨true, none, [], false, false⟩
      ⟨true, none, [], false, false⟩ (by decide) rfl rfl rfl rfl)
  exact ⟨h2, c2_connection_symmetry _ h2⟩

theorem disconnect_local_broken (dp : EndData) (st : NtStatus)
    (hmw : dp.msgWrite = true) (hst : st ≠ NtStatus.pipe_disconnected) :
    (disconnect_local { dp with conn := none } st).1 =
      { dp with conn := none,
                queue := dp.queue.filter (fun m => m.async.isNone) } := by
  simp only [disconnect_local]
  rw [if_pos (show ({ dp with conn := none } : EndData).msgWrite = true from hmw)]
  dsimp only
  rw [if_neg hst, if_neg hst]

/-- Claim C10: a message-mode read on an end whose connection is gone
fails synchronously with pipe_broken exactly when its message queue is
also empty; a teardown whose status is not pipe_disconnected (such as the
pipe_broken teardown run when the peer is destroyed) leaves in the peer's
queue precisely the messages whose writer async had already completed
(async detached), with the connection nulled; and a subsequent read on
such an end with a non-empty queue proceeds (is queued for reselect)
instead of failing, so the remaining data stays readable until the queue
drains. -/
theorem c10_broken_read :
    (∀ d : EndData, d.msgWrite = true →
      (pipe_end_read d = ReadAttempt.failBroken ↔ (d.conn = none ∧ d.queue = []))) ∧
    (∀ (w : World) (e p : Nat) (st : NtStatus) (d dp : EndData),
      w e = some d → d.conn = some p → p ≠ e → w p = some dp →
      dp.msgWrite = true → st ≠ NtStatus.pipe_disconnected →
      (pipe_end_disconnectW w e st).1 p =
        some { dp with conn := none,
                       queue := dp.queue.filter (fun m => m.async.isNone) }) ∧
    (∀ d : EndData, d.msgWrite = true → d.conn = none → d.queue ≠ [] →
      pipe_end_read d = ReadAttempt.queued) := by
  refine ⟨fun d hmw => ?_, fun w e p st d dp hwe hconn hpe hwp hmwp hst => ?_,
    fun d hmw hc hq => ?_⟩
  · rw [pipe_end_read, if_neg (by rw [hmw]; simp)]
    by_cases hc : d.conn = none ∧ d.queue = []
    · rw [if_pos hc]
      simp [hc]
    · rw [if_neg hc]
      simp [hc]
  · rcases disconnectW_cases w e st with ⟨hwe2, -⟩ | ⟨d', hwe2, hcd', -⟩ |
      ⟨d', p', hwe2, hcd', hsub⟩
    · rw [hwe] at hwe2
      exact absurd hwe2 (by simp)
    · rw [hwe] at hwe2
      obtain rfl : d' = d := (Option.some.inj hwe2).symm
      rw [hconn] at hcd'
      exact absurd hcd' (by simp)
    · rw [hwe] at hwe2
      obtain rfl : d' = d := (Option.some.inj hwe2).symm
      rw [hconn] at hcd'
      obtain rfl : p' = p := (Option.some.inj hcd').symm
      rcases hsub with ⟨hw2p, hfin⟩ | ⟨d2, hw2p, hc2, hfin⟩
      · rw [setConn_eval, if_pos rfl, setEnd_other _ _ _ _ hpe, hwp] at hw2p
        exact absurd hw2p (by simp)
      · rw [setConn_eval, if_pos rfl, setEnd_other _ _ _ _ hpe, hwp] at hw2p
        simp only [Option.map, Option.some.injEq] at hw2p
        obtain rfl : d2 = { dp with conn := none } := hw2p.symm
        rw [hfin, setEnd_same]
        dsimp only
        rw [disconnect_local_broken dp st hmwp hst]
  · rw [pipe_end_read, if_neg (by rw [hmw]; simp)]
    rw [if_neg (by rintro ⟨-, h2⟩; exact hq h2)]

theorem c10_witness :
    pipe_end_read ⟨true, none, [⟨0, [7], NtStatus.success, 1, none⟩], true, true⟩ =
      ReadAttempt.queued :=
  c10_broken_read.2.2 ⟨true, none, [⟨0, [7], NtStatus.success, 1, none⟩], true, true⟩
    rfl rfl (by decide)

end NamedPipe
